import Mathlib

/-!
Verification of the qualys2human ingestion/classification/coherence pipeline.

Shallow embedding of the Python sources under `src/backend/src/q2h/`:
  - `ingestion/csv_parser.py` (report parser),
  - `ingestion/importer.py` (importer orchestrator, per-row classification,
    field coercion, host upsert, coherence checks),
  - `api/layers.py` (bulk reclassification),
  - `main.py` (watcher auto-import with duplicate detection),
  - `watcher/service.py` (file watcher scan cycle and stability gate).

Python strings are modelled as Lean `String`/`List Char`; machine integers as
`Int`/`Nat` (no overflow is relevant anywhere in this code); `datetime` values
as explicit calendar records; database tables as association lists; a raised
exception as `Except.error`.
-/

namespace Q2H

/-! ### Basic string helpers -/


/-- Python `str.lower()` on a list of characters (`Char.toLower` per
character; `String.toLower` maps the same function but is opaque to kernel
reduction, so the list form is used throughout). -/
def lowerChars (cs : List Char) : List Char := cs.map Char.toLower

/-- Predicate `beginsWith p s`: the string `s` starts with `p`. -/
def beginsWith : List Char → List Char → Bool
  | [], _ => true
  | _ :: _, [] => false
  | c :: p, d :: s => c = d && beginsWith p s

/-- Python's substring test `pat in s`, on lists of characters. -/
def containsSub (pat : List Char) : List Char → Bool
  | [] => pat.isEmpty
  | c :: rest => beginsWith pat (c :: rest) || containsSub pat rest

/-! ### Layer classification (importer.py lines 52-59 and 115-123)

`QualysImporter.run` loads the rules as tuples
`(r.match_field, r.pattern.lower(), r.layer_id)` ordered by priority
descending, then for each detail row walks the list and returns the first
rule whose lowered pattern occurs in the lowered subject string. -/

structure LayerRule where
  match_field : String
  pattern : String
  layer_id : Nat
deriving DecidableEq

/-- importer.py lines 56-59: `(r.match_field, r.pattern.lower(), r.layer_id)`. -/
def loadedRules (rules : List LayerRule) : List (String × List Char × Nat) :=
  rules.map fun r => (r.match_field, lowerChars r.pattern.data, r.layer_id)

/-- importer.py lines 115-123: the first-match-wins classification loop.
`value = title if match_field == "title" else category`;
match when `pattern_lower in value.lower()`; stop at the first match. -/
def classify (title category : String) : List (String × List Char × Nat) → Option Nat
  | [] => none
  | (mf, patLower, lid) :: rest =>
    if containsSub patLower (lowerChars (if mf = "title" then title else category).data)
    then some lid
    else classify title category rest

/-- A rule matches a row when its lowercased pattern is a substring of the
lowercased subject string selected by `match_field`. -/
def ruleMatches (title category : String) (r : LayerRule) : Bool :=
  containsSub (lowerChars r.pattern.data)
    (lowerChars (if r.match_field = "title" then title else category).data)

/-! ### Encoding fallback (csv_parser.py `_load_lines`, lines 38-49)

The file bytes are decoded by trying `utf-8`, then `latin-1`, then `cp1252`;
the `ValueError("Cannot decode ...")` branch runs only if all three fail. -/


/-- One byte of the input file. -/
abbrev Byte := Fin 256

/-- Value of a UTF-8 continuation byte (`10xxxxxx`), if it is one. -/
def contVal (b : Byte) : Option Nat :=
  if 0x80 ≤ b.val ∧ b.val < 0xC0 then some (b.val - 0x80) else none

/-- A UTF-8 decoder: fails on stray continuation bytes, truncated sequences,
overlong encodings, surrogates and code points above `0x10FFFF`. -/
def utf8Decode : List Byte → Option (List Char)
  | [] => some []
  | b :: rest =>
    if b.val < 0x80 then
      (utf8Decode rest).map (fun cs => Char.ofNat b.val :: cs)
    else if b.val < 0xC2 then
      none
    else if b.val < 0xE0 then
      match rest with
      | c1 :: rest' =>
        match contVal c1 with
        | some v1 =>
          (utf8Decode rest').map (fun cs => Char.ofNat ((b.val - 0xC0) * 0x40 + v1) :: cs)
        | none => none
      | [] => none
    else if b.val < 0xF0 then
      match rest with
      | c1 :: c2 :: rest' =>
        match contVal c1, contVal c2 with
        | some v1, some v2 =>
          let cp := (b.val - 0xE0) * 0x1000 + v1 * 0x40 + v2
          if 0x800 ≤ cp ∧ ¬ (0xD800 ≤ cp ∧ cp ≤ 0xDFFF) then
            (utf8Decode rest').map (fun cs => Char.ofNat cp :: cs)
          else none
        | _, _ => none
      | _ => none
    else if b.val < 0xF5 then
      match rest with
      | c1 :: c2 :: c3 :: rest' =>
        match contVal c1, contVal c2, contVal c3 with
        | some v1, some v2, some v3 =>
          let cp := (b.val - 0xF0) * 0x40000 + v1 * 0x1000 + v2 * 0x40 + v3
          if 0x10000 ≤ cp ∧ cp ≤ 0x10FFFF then
            (utf8Decode rest').map (fun cs => Char.ofNat cp :: cs)
          else none
        | _, _, _ => none
      | _ => none
    else none

/-- latin-1 (ISO-8859-1) decoding: every byte maps to the character with the
same code point, so this decoder is total. -/
def latin1Decode (bs : List Byte) : List Char :=
  bs.map fun b => Char.ofNat b.val

/-- cp1252 mapping of one byte: bytes `0x80`-`0x9F` are remapped through the
Windows-1252 table, with five positions undefined (decode error). -/
def cp1252Char (b : Byte) : Option Char :=
  if b.val < 0x80 ∨ 0xA0 ≤ b.val then some (Char.ofNat b.val)
  else match b.val with
  | 0x80 => some (Char.ofNat 0x20AC)
  | 0x82 => some (Char.ofNat 0x201A)
  | 0x83 => some (Char.ofNat 0x0192)
  | 0x84 => some (Char.ofNat 0x201E)
  | 0x85 => some (Char.ofNat 0x2026)
  | 0x86 => some (Char.ofNat 0x2020)
  | 0x87 => some (Char.ofNat 0x2021)
  | 0x88 => some (Char.ofNat 0x02C6)
  | 0x89 => some (Char.ofNat 0x2030)
  | 0x8A => some (Char.ofNat 0x0160)
  | 0x8B => some (Char.ofNat 0x2039)
  | 0x8C => some (Char.ofNat 0x0152)
  | 0x8E => some (Char.ofNat 0x017D)
  | 0x91 => some (Char.ofNat 0x2018)
  | 0x92 => some (Char.ofNat 0x2019)
  | 0x93 => some (Char.ofNat 0x201C)
  | 0x94 => some (Char.ofNat 0x201D)
  | 0x95 => some (Char.ofNat 0x2022)
  | 0x96 => some (Char.ofNat 0x2013)
  | 0x97 => some (Char.ofNat 0x2014)
  | 0x98 => some (Char.ofNat 0x02DC)
  | 0x99 => some (Char.ofNat 0x2122)
  | 0x9A => some (Char.ofNat 0x0161)
  | 0x9B => some (Char.ofNat 0x203A)
  | 0x9C => some (Char.ofNat 0x0153)
  | 0x9E => some (Char.ofNat 0x017E)
  | _ => none

/-- cp1252 decoding of a byte string. -/
def cp1252Decode (bs : List Byte) : Option (List Char) :=
  bs.mapM cp1252Char

/-- csv_parser.py line 40: `encodings = ["utf-8", "latin-1", "cp1252"]`. -/
def decoders : List (List Byte → Option (List Char)) :=
  [utf8Decode, fun bs => some (latin1Decode bs), cp1252Decode]

/-- csv_parser.py `_load_lines`: try each decoder in order and return the
first success; the final `raise ValueError(f"Cannot decode ...")` models the
case where every decoder failed. -/
def loadFileText (bs : List Byte) : Except String (List Char) :=
  match decoders.findSome? (fun d => d bs) with
  | some cs => .ok cs
  | none => .error "Cannot decode"

/-! ### Coherence checks (importer.py `_run_coherence_checks`, lines 178-236) -/


/-- One parsed detail row.  Fields hold the raw cell text as produced by
`csv.DictReader` (an absent or empty cell is `""`, which is also how Python's
truthiness tests treat both).  Columns that the importer copies verbatim into
the `Vulnerability` record without any transformation are not repeated here. -/
structure DetailRow where
  ip : String := ""
  dns : String := ""
  netbios : String := ""
  os : String := ""
  os_cpe : String := ""
  qid : String := ""
  title : String := ""
  severity : String := ""
  port : String := ""
  ssl : String := ""
  pci : String := ""
  cve : String := ""
  times_detected : String := ""
  first_detected : String := ""
  last_detected : String := ""
  date_last_fixed : String := ""
  category : String := ""
deriving DecidableEq

/-- A persisted `ReportCoherenceCheck` row (db/models.py lines 108-118). -/
structure Check where
  check_type : String
  entity : Option String
  expected_value : String
  actual_value : String
  severity : String
deriving DecidableEq

/-- One entry of the host-summary zone (csv_parser.py `HostSummary`).  The
`security_risk` float is kept as its validated source text, since its numeric
value is never used by the pipeline logic under verification. -/
structure HostSummary where
  ip : String
  total_vulns : Int
  security_risk_raw : String
deriving DecidableEq

/-- Header metadata (csv_parser.py `ReportMetadata`).  `report_date` is a
calendar date (the parsed `datetime`); `avg_risk` keeps the validated source
text of the float. -/
structure PDateTime where
  month : Nat
  day : Nat
  year : Nat
  hour : Nat := 0
  minute : Nat := 0
  second : Nat := 0
deriving DecidableEq

structure ReportMetadata where
  report_name : Option String := none
  report_date : Option PDateTime := none
  company_name : Option String := none
  asset_group : Option String := none
  active_hosts : Option Int := none
  total_vulns : Option Int := none
  avg_risk : Option String := none
deriving DecidableEq

/-- Distinct IPs of the detail rows in first-appearance order
(`df["IP"].n_unique()` / `set(df["IP"].unique().to_list())`). -/
def distinctIps (rows : List DetailRow) : List String :=
  (rows.map DetailRow.ip).dedup

/-- importer.py lines 183-191: the declared-total-vulnerabilities check. -/
def totalVulnsChecks (meta : ReportMetadata) (rows : List DetailRow) : List Check :=
  match meta.total_vulns with
  | some t =>
    if t ≠ (rows.length : Int) then
      [⟨"total_vulns_mismatch", none, toString t, toString (rows.length : Int),
        if (t - (rows.length : Int)).natAbs ≤ 2 then "warning" else "error"⟩]
    else []
  | none => []

/-- importer.py lines 193-201: the declared-active-hosts check. -/
def hostCountChecks (meta : ReportMetadata) (rows : List DetailRow) : List Check :=
  match meta.active_hosts with
  | some a =>
    if a ≠ ((distinctIps rows).length : Int) then
      [⟨"host_count_mismatch", none, toString a, toString ((distinctIps rows).length : Int),
        "warning"⟩]
    else []
  | none => []

/-- importer.py lines 203-214: per-host declared-count checks. -/
def perHostChecks (host_summaries : List HostSummary) (rows : List DetailRow) : List Check :=
  host_summaries.filterMap fun hs =>
    if ((rows.filter (fun r => r.ip = hs.ip)).length : Int) ≠ hs.total_vulns then
      some ⟨"host_vuln_mismatch", some hs.ip, toString hs.total_vulns,
            toString ((rows.filter (fun r => r.ip = hs.ip)).length : Int), "warning"⟩
    else none

/-- importer.py lines 216-227: hosts summarized but absent from the detail. -/
def missingHostChecks (host_summaries : List HostSummary) (rows : List DetailRow) : List Check :=
  (((host_summaries.map HostSummary.ip).dedup).filter
      (fun ip => ¬ ip ∈ distinctIps rows)).map fun ip =>
    ⟨"missing_host", some ip, "present_in_summary", "absent_from_detail", "error"⟩

/-- importer.py lines 228-236: hosts in the detail but not summarized. -/
def extraHostChecks (host_summaries : List HostSummary) (rows : List DetailRow) : List Check :=
  ((distinctIps rows).filter
      (fun ip => ¬ ip ∈ (host_summaries.map HostSummary.ip).dedup)).map fun ip =>
    ⟨"missing_host", some ip, "absent_from_summary", "present_in_detail", "warning"⟩

/-- importer.py `_run_coherence_checks`: all discrepancy records staged for
one import run.  Set iteration order for the two `missing_host` blocks is modelled
as first-appearance order (the Python sets have arbitrary iteration order; no
claim depends on it). -/
def runCoherenceChecks (meta : ReportMetadata) (host_summaries : List HostSummary)
    (rows : List DetailRow) : List Check :=
  totalVulnsChecks meta rows ++ hostCountChecks meta rows
    ++ perHostChecks host_summaries rows ++ missingHostChecks host_summaries rows
    ++ extraHostChecks host_summaries rows

/-! ### Bulk reclassification (api/layers.py `_run_reclassify`, lines 260-311)

After clearing `layer_id` on all findings, each rule (priority descending)
performs `UPDATE ... WHERE layer_id IS NULL AND lower(col) LIKE '%'||esc||'%'`
where `esc = rule.pattern.lower().replace("%", "\\%").replace("_", "\\_")`.
PostgreSQL `LIKE` uses backslash as its default escape character, which the
escaping relies on — but the pattern's own backslashes are *not* escaped. -/


/-- PostgreSQL `LIKE` pattern matching (fuel-indexed): `%` matches any
sequence, `_` any single character, `\c` the literal character `c`.  (A
pattern ending in a lone backslash is an error in PostgreSQL; it is modelled
as a non-match, and never arises from the generated `'%'++esc++'%'`
patterns.)  Every matching step shortens pattern-plus-string, so fuel
`p.length + s.length` always suffices (`likeMatchF_fuelFree` below). -/
def likeMatchF : Nat → List Char → List Char → Bool
  | _, [], s => s.isEmpty
  | 0, _ :: _, _ => false
  | f + 1, '%' :: p, [] => likeMatchF f p []
  | f + 1, '%' :: p, d :: s => likeMatchF f p (d :: s) || likeMatchF f ('%' :: p) s
  | f + 1, '\\' :: c2 :: p, d :: s => c2 = d && likeMatchF f p s
  | _ + 1, '\\' :: _, _ => false
  | f + 1, '_' :: p, _ :: s => likeMatchF f p s
  | _ + 1, '_' :: _, [] => false
  | f + 1, c :: p, d :: s => c = d && likeMatchF f p s
  | _ + 1, _ :: _, [] => false

/-- PostgreSQL `LIKE` matching of pattern `p` against string `s`. -/
def likeMatch (p s : List Char) : Bool := likeMatchF (p.length + s.length) p s

/-- layers.py line 286: `pattern.lower().replace("%", "\\%").replace("_", "\\_")`
(the two sequential global replaces insert a backslash before every `%` and
`_`; no other character — in particular no backslash — is escaped). -/
def escapeLike : List Char → List Char
  | [] => []
  | c :: rest =>
    if c = '%' ∨ c = '_' then '\\' :: c :: escapeLike rest
    else c :: escapeLike rest

/-- layers.py lines 277-297 restricted to a single finding: starting from the
cleared (`none`) assignment, each rule in order updates the finding only if it
is still unclassified and `lower(col) LIKE '%' || esc || '%'` holds, where
`col` is the title or category column per `match_field`. -/
def bulkClassify (title category : String) (rules : List LayerRule) : Option Nat :=
  rules.foldl
    (fun acc r =>
      match acc with
      | some _ => acc
      | none =>
        if likeMatch ('%' :: (escapeLike (lowerChars r.pattern.data) ++ ['%']))
            (lowerChars (if r.match_field = "title" then title else category).data) then
          some r.layer_id
        else none)
    none

/-! ### Host upsert (importer.py lines 61-90; db/models.py `Host`)

Per detail row, the importer looks the host up by IP (unique column); if
absent it inserts a new row (`first_seen`/`last_seen` get the insert-time
server default), otherwise it refreshes `last_seen` and updates `dns`/`os`
only when the row's value is truthy (`host.dns = row.get("DNS") or host.dns`).
The in-run `host_cache` means only the first row per IP touches the table. -/


/-- A persisted `Host` row.  String fields use `""` for SQL NULL / the empty
cell (Python's `or` treats both as falsy).  Timestamps are abstract clock
readings. -/
structure HostRec where
  dns : String
  netbios : String
  os : String
  os_cpe : String
  first_seen : Nat
  last_seen : Nat
deriving DecidableEq

/-- The `hosts` table, keyed by the unique `ip` column. -/
abbrev HostTable := List (String × HostRec)

/-- Query `SELECT ... WHERE Host.ip == ip` (the unique index makes the first match
the only match). -/
def lookupHost (ip : String) (tbl : HostTable) : Option HostRec :=
  (tbl.find? (fun p => p.1 = ip)).map Prod.snd

/-- In-place mutation of the (unique) row with key `ip`. -/
def updateHost (ip : String) (f : HostRec → HostRec) : HostTable → HostTable
  | [] => []
  | (k, h) :: rest =>
    if k = ip then (k, f h) :: rest else (k, h) :: updateHost ip f rest

/-- importer.py lines 72-87: create-or-refresh of one host at clock time `t`. -/
def upsertHost (t : Nat) (row : DetailRow) (tbl : HostTable) : HostTable :=
  match lookupHost row.ip tbl with
  | none =>
    tbl ++ [(row.ip, ⟨row.dns, row.netbios, row.os, row.os_cpe, t, t⟩)]
  | some _ =>
    updateHost row.ip
      (fun h =>
        { h with
          last_seen := t
          dns := if row.dns ≠ "" then row.dns else h.dns
          os := if row.os ≠ "" then row.os else h.os })
      tbl

/-- importer.py lines 65-90 restricted to host effects: skip rows with empty
IP; the `host_cache` (`seen`) makes only the first row per IP upsert. -/
def importGo (t : Nat) : List DetailRow → HostTable → List String → HostTable
  | [], tbl, _ => tbl
  | row :: rest, tbl, seen =>
    if row.ip = "" then importGo t rest tbl seen
    else if row.ip ∈ seen then importGo t rest tbl seen
    else importGo t rest (upsertHost t row tbl) (row.ip :: seen)

/-- Host effects of one import run at clock time `t`. -/
def importHosts (t : Nat) (rows : List DetailRow) (tbl : HostTable) : HostTable :=
  importGo t rows tbl []

/-- Host effects of a sequence of import runs `(clock time, detail rows)`. -/
def runImports (imps : List (Nat × List DetailRow)) (tbl : HostTable) : HostTable :=
  imps.foldl (fun acc p => importHosts p.1 p.2 acc) tbl

/-- Number of rows of the `hosts` table holding a given IP. -/
def countKey (ip : String) (tbl : HostTable) : Nat :=
  (tbl.filter (fun p => p.1 = ip)).length

/-! ### Watcher scan cycle (watcher/service.py `_do_scan` lines 129-178 and
`_is_stable` lines 180-188)

Per file in enumeration order: skip when older than the `ignore_before`
cutoff; skip when the current mtime equals the recorded one; defer (without
recording) when the two size samples differ or the size is zero; otherwise
record the mtime *before* invoking the import callback, so the record is kept
regardless of the import outcome. -/


/-- One observation of a file during a scan cycle: resolved path, current
mtime, the two stability size samples, the producing watch path's
`ignore_before` cutoff, and whether the import callback would succeed (the
outcome does not influence the watcher's bookkeeping). -/
structure FileEvent where
  path : String
  mtime : Nat
  size1 : Nat
  size2 : Nat
  ignoreBefore : Option Nat
  importOk : Bool
deriving DecidableEq

/-- The watcher's in-memory `_known_files` map (resolved path → last mtime). -/
abbrev KnownFiles := List (String × Nat)

def lookupMtime (path : String) (m : KnownFiles) : Option Nat :=
  (m.find? (fun p => p.1 = path)).map Prod.snd

def recordMtime (path : String) (t : Nat) : KnownFiles → KnownFiles
  | [] => [(path, t)]
  | (k, v) :: rest =>
    if k = path then (k, t) :: rest else (k, v) :: recordMtime path t rest

/-- service.py lines 144-150: `datetime.fromtimestamp(current_mtime) < ignore_before`. -/
def skipByCutoff (e : FileEvent) : Bool :=
  match e.ignoreBefore with
  | some c => e.mtime < c
  | none => false

/-- service.py `_is_stable`: equal and non-zero size samples. -/
def isStable (e : FileEvent) : Bool :=
  e.size1 = e.size2 && e.size2 > 0

/-- service.py lines 137-178 for one encountered file.  Returns the new map
and whether the import callback was invoked. -/
def watchStep (known : KnownFiles) (e : FileEvent) : KnownFiles × Bool :=
  if skipByCutoff e then (known, false)
  else
    match lookupMtime e.path known with
    | some m =>
      if e.mtime = m then (known, false)
      else if isStable e then (recordMtime e.path e.mtime known, true)
      else (known, false)
    | none =>
      if isStable e then (recordMtime e.path e.mtime known, true)
      else (known, false)

/-- One scan cycle over the encountered files, accumulating the paths for
which the import callback was invoked. -/
def watchCycle (known : KnownFiles) : List FileEvent → KnownFiles × List String
  | [] => (known, [])
  | e :: rest =>
    match watchStep known e with
    | (known', fired) =>
      match watchCycle known' rest with
      | (finalKnown, imps) => (finalKnown, if fired then e.path :: imps else imps)

/-- Occurrences of one path among the fired imports of a cycle. -/
def countPath (p : String) (l : List String) : Nat :=
  (l.filter (fun q => q = p)).length

/-! ### Watcher auto-import duplicate detection (main.py `_auto_import`,
lines 29-71)

Before importing, the watcher callback parses the file's own header; when a
report date was parsed it queries persisted `ScanReport` rows on the date,
plus the asset group when truthy and the declared total when present, and
skips (with a log line, creating no ScanReport/ImportJob) when a match
exists; otherwise the importer runs. -/


/-- A persisted `ScanReport` row (the columns consulted by dedup). -/
structure PersistedReport where
  report_date : Option PDateTime
  asset_group : Option String
  total_vulns_declared : Option Int
deriving DecidableEq

/-- Python truthiness of an optional string (`None` and `""` are falsy). -/
def optStrTruthy : Option String → Bool
  | none => false
  | some s => !(s = "")

/-- main.py lines 47-51: the conjunction of SQL conditions built for dedup —
always the report date, plus the asset group when truthy and the declared
total when not `None`. -/
def dedupConds (meta : ReportMetadata) (d : PDateTime) (r : PersistedReport) : Bool :=
  (r.report_date = some d)
  && (if optStrTruthy meta.asset_group then r.asset_group = meta.asset_group else true)
  && (match meta.total_vulns with
      | some t => r.total_vulns_declared = some t
      | none => true)

/-- main.py `_auto_import` up to the import decision: `true` when the
importer runs (no parsed header date, or no persisted report matches the
conditions); `false` when a match exists and the file is skipped.  (With two
or more matches `scalar_one_or_none` raises instead; the watcher then logs
the failure and the importer equally never runs.) -/
def autoImportProceeds (meta : ReportMetadata) (persisted : List PersistedReport) : Bool :=
  match meta.report_date with
  | none => true
  | some d => !(persisted.any (dedupConds meta d))

/-- A concrete parsed header used as the duplicate-detection witness. -/
def dedupMetaW : ReportMetadata :=
  { report_date := some ⟨3, 15, 2026, 0, 0, 0⟩, asset_group := some "GroupA",
    total_vulns := some 100 }

/-- A concrete persisted report matching `dedupMetaW` on all three fields. -/
def dedupReportW : PersistedReport :=
  ⟨some ⟨3, 15, 2026, 0, 0, 0⟩, some "GroupA", some 100⟩

/-! ### Field coercion and the import run (importer.py lines 92-176)

String primitives are modelled on `List Char` (the `String.Pos`-based
methods of core do not reduce in the kernel). -/


/-- Python whitespace stripped by `str.strip()`. -/
def isPySpace (c : Char) : Bool :=
  c = ' ' ∨ c = '\t' ∨ c = '\n' ∨ c = '\r' ∨ c = '\x0b' ∨ c = '\x0c'

/-- Python `str.strip()`. -/
def trimChars (cs : List Char) : List Char :=
  ((cs.dropWhile isPySpace).reverse.dropWhile isPySpace).reverse

/-- Python `str.split(sep)` for a one-character separator. -/
def splitOnChar (sep : Char) : List Char → List (List Char)
  | [] => [[]]
  | c :: rest =>
    match splitOnChar sep rest with
    | h :: t => if c = sep then [] :: h :: t else (c :: h) :: t
    | [] => if c = sep then [[], []] else [[c]]

/-- Numeric value of a digit run. -/
def digitsToNat (ds : List Char) : Nat :=
  ds.foldl (fun n c => 10 * n + (c.toNat - 48)) 0

/-- Python `int(s)` on a decimal string: surrounding whitespace and one
optional sign, then one or more ASCII digits; anything else raises
`ValueError` (underscore grouping and non-ASCII digits are not modelled). -/
def pyInt (s : String) : Except String Int :=
  match trimChars s.data with
  | '-' :: ds =>
    if ds ≠ [] ∧ ds.all Char.isDigit then .ok (-(digitsToNat ds : Int))
    else .error ("invalid literal for int: " ++ s)
  | '+' :: ds =>
    if ds ≠ [] ∧ ds.all Char.isDigit then .ok ((digitsToNat ds : Int))
    else .error ("invalid literal for int: " ++ s)
  | ds =>
    if ds ≠ [] ∧ ds.all Char.isDigit then .ok ((digitsToNat ds : Int))
    else .error ("invalid literal for int: " ++ s)

/-- Greedily take up to `maxN` leading decimal digits. -/
def takeDigits : Nat → List Char → (List Char × List Char)
  | 0, cs => ([], cs)
  | _ + 1, [] => ([], [])
  | n + 1, c :: cs =>
    if c.isDigit then
      match takeDigits n cs with
      | (ds, rest) => (c :: ds, rest)
    else ([], c :: cs)

/-- Days per month as validated by `datetime` (Gregorian leap rule). -/
def daysInMonth (m year : Nat) : Nat :=
  if m = 2 then
    if (year % 4 = 0 ∧ year % 100 ≠ 0) ∨ year % 400 = 0 then 29 else 28
  else if m = 4 ∨ m = 6 ∨ m = 9 ∨ m = 11 then 30 else 31

/-- The bounds `datetime(year, month, day)` enforces. -/
def validYMD (m d y : Nat) : Bool :=
  1 ≤ y && y ≤ 9999 && 1 ≤ m && m ≤ 12 && 1 ≤ d && d ≤ daysInMonth m y

/-- The `"%m/%d/%Y"` fragment of strptime: 1-2 digit month and day, 1-4 digit
year; returns the values and the unconsumed input. -/
def parseMDY (cs : List Char) : Option (Nat × Nat × Nat × List Char) :=
  match takeDigits 2 cs with
  | ([], _) => none
  | (mcs, r1) =>
    match r1 with
    | '/' :: r2 =>
      match takeDigits 2 r2 with
      | ([], _) => none
      | (dcs, r3) =>
        match r3 with
        | '/' :: r4 =>
          match takeDigits 4 r4 with
          | ([], _) => none
          | (ycs, r5) => some (digitsToNat mcs, digitsToNat dcs, digitsToNat ycs, r5)
        | _ => none
    | _ => none

/-- Model of `datetime.strptime(s, "%m/%d/%Y")`: full consumption and a valid
calendar date. -/
def strptimeMDY (cs : List Char) : Option PDateTime :=
  match parseMDY cs with
  | some (m, d, y, []) =>
    if validYMD m d y then some ⟨m, d, y, 0, 0, 0⟩ else none
  | _ => none

/-- Model of `datetime.strptime(s, "%m/%d/%Y %H:%M:%S")`. -/
def strptimeFull (cs : List Char) : Option PDateTime :=
  match parseMDY cs with
  | some (m, d, y, ' ' :: r1) =>
    match takeDigits 2 r1 with
    | ([], _) => none
    | (hcs, ':' :: r2) =>
      match takeDigits 2 r2 with
      | ([], _) => none
      | (mics, ':' :: r3) =>
        match takeDigits 2 r3 with
        | ([], _) => none
        | (scs, []) =>
          if validYMD m d y && digitsToNat hcs ≤ 23 && digitsToNat mics ≤ 59
              && digitsToNat scs ≤ 59 then
            some ⟨m, d, y, digitsToNat hcs, digitsToNat mics, digitsToNat scs⟩
          else none
        | _ => none
      | _ => none
    | _ => none
  | _ => none

/-- importer.py lines 105-113 `parse_dt`: empty value → None; otherwise try
the two known formats on the stripped value; None when both fail — never an
exception. -/
def parse_dt (s : String) : Option PDateTime :=
  if s = "" then none
  else
    match strptimeFull (trimChars s.data) with
    | some dt => some dt
    | none => strptimeMDY (trimChars s.data)

/-- importer.py line 93: `int(row.get("Severity", "0") or "0")` — empty
defaults to 0, but a non-numeric value raises. -/
def coerceSeverity (s : String) : Except String Int :=
  pyInt (if s = "" then "0" else s)

/-- importer.py line 94: `int(row.get("QID", "0") or "0")`. -/
def coerceQid (s : String) : Except String Int :=
  pyInt (if s = "" then "0" else s)

/-- importer.py lines 95-96:
`int(port_str) if port_str and port_str.isdigit() else None` — guarded by
`isdigit`, hence never raises. -/
def coercePort (s : String) : Option Int :=
  if s ≠ "" ∧ s.data.all Char.isDigit then some ((digitsToNat s.data : Int)) else none

/-- importer.py lines 97-98:
`True if ssl_str and "ssl" in ssl_str.lower() else None`. -/
def coerceSsl (s : String) : Option Bool :=
  if s ≠ "" ∧ containsSub "ssl".data (lowerChars s.data) then some true else none

/-- importer.py lines 99-100: `pci_str.lower() == "yes" if pci_str else None`. -/
def coercePci (s : String) : Option Bool :=
  if s = "" then none else some (lowerChars s.data = "yes".data)

/-- importer.py lines 102-103: split the raw value on commas, strip each
part, drop blanks; `None` only when the raw value itself is empty (an
all-blank value yields the empty list, not None). -/
def coerceCves (s : String) : Option (List String) :=
  if s = "" then none
  else
    some ((((splitOnChar ',' s.data).map (fun c => String.mk (trimChars c))).filter
      (fun c => c ≠ "")))

/-- importer.py line 139:
`int(row["Times Detected"]) if row.get("Times Detected") else None`. -/
def coerceTimesDetected (s : String) : Except String (Option Int) :=
  if s = "" then .ok none else (pyInt s).map some

/-- The typed fields of one staged `Vulnerability` row (columns the importer
copies verbatim from the csv cell are not repeated). -/
structure Finding where
  qid : Int
  title : String
  severity : Int
  port : Option Int
  ssl : Option Bool
  first_detected : Option PDateTime
  last_detected : Option PDateTime
  times_detected : Option Int
  date_last_fixed : Option PDateTime
  cve_ids : Option (List String)
  pci_vuln : Option Bool
  category : String
  layer_id : Option Nat
deriving DecidableEq

/-- importer.py lines 92-158 for one detail row: field coercion,
classification, and construction of the staged Finding.  `Except.error`
models an uncaught `ValueError` aborting the whole run. -/
def importRow (layerRules : List (String × List Char × Nat)) (row : DetailRow) :
    Except String Finding := do
  let severity ← coerceSeverity row.severity
  let qid ← coerceQid row.qid
  let td ← coerceTimesDetected row.times_detected
  pure
    { qid := qid, title := row.title, severity := severity,
      port := coercePort row.port, ssl := coerceSsl row.ssl,
      first_detected := parse_dt row.first_detected,
      last_detected := parse_dt row.last_detected,
      times_detected := td,
      date_last_fixed := parse_dt row.date_last_fixed,
      cve_ids := coerceCves row.cve, pci_vuln := coercePci row.pci,
      category := row.category,
      layer_id := classify row.title row.category layerRules }

/-- The ImportJob columns the run mutates (db/models.py lines 92-103). -/
structure JobState where
  status : String
  progress : Int
  rows_processed : Int
  rows_total : Int
  ended_at_set : Bool
  error_message : Option String
deriving DecidableEq

/-- The row loop of `QualysImporter.run`: skip rows with empty IP, stage a
Finding per remaining row, abort on the first coercion exception. -/
def importRunGo (layerRules : List (String × List Char × Nat)) :
    List DetailRow → Nat → List Finding → Except String (Nat × List Finding)
  | [], n, acc => .ok (n, acc.reverse)
  | row :: rest, n, acc =>
    if row.ip = "" then importRunGo layerRules rest n acc
    else
      match importRow layerRules row with
      | .error e => .error e
      | .ok f => importRunGo layerRules rest (n + 1) (f :: acc)

/-- importer.py steps 4-7 of `run` (lines 47-176), job-state view: stream the
detail rows, coerce and classify each — an uncaught ValueError aborts the run
and, since the transaction commits only at finalize, rolls the job row back
uncommitted (`Except.error`); on success finalize the job to `done`,
progress 100, `rows_processed` = number of staged rows, end timestamp set.
No code path anywhere in the repository assigns status `"error"` or an
`error_message`. -/
def importRun (layerRules : List (String × List Char × Nat)) (rows : List DetailRow) :
    Except String (JobState × List Finding) :=
  match importRunGo layerRules rows 0 [] with
  | .error e => .error e
  | .ok (n, fs) =>
    .ok ({ status := "done", progress := 100, rows_processed := n,
           rows_total := rows.length, ended_at_set := true,
           error_message := none }, fs)

/-- A detail row whose Severity cell is non-numeric. -/
def badSeverityRow : DetailRow :=
  { ip := "10.0.0.1", title := "Weak cipher", category := "General",
    severity := "High" }

/-! ### Header / host-summary / detail-zone parsing (csv_parser.py lines
51-126)

`_parse_csv_line` runs `csv.reader` over the single stripped line: fields
split on commas, a field starting with a double quote is quoted with `""` for
a literal quote; an empty line yields no row (`[]`). -/


/-- The `csv.reader` field splitter for one line (no embedded newlines):
`acc` is the current field reversed, the Bool is the in-quotes state. -/
def csvSplitGo : List Char → List Char → Bool → List String
  | [], acc, _ => [String.mk acc.reverse]
  | '"' :: '"' :: rest, acc, true => csvSplitGo rest ('"' :: acc) true
  | '"' :: rest, acc, true => csvSplitGo rest acc false
  | ',' :: rest, acc, false => String.mk acc.reverse :: csvSplitGo rest [] false
  | '"' :: rest, acc, false =>
    if acc = [] then csvSplitGo rest [] true else csvSplitGo rest ('"' :: acc) false
  | c :: rest, acc, true => csvSplitGo rest (c :: acc) true
  | c :: rest, acc, false => csvSplitGo rest (c :: acc) false

/-- csv_parser.py `_parse_csv_line`: parse the stripped line, `[]` when it is
empty. -/
def pyParseCSVLine (line : String) : List String :=
  match trimChars line.data with
  | [] => []
  | cs => csvSplitGo cs [] false

/-- Model of `re.search(r"(\d{2}/\d{2}/\d{4})", s)` at one position: exactly
2+2+4 digits around the two slashes, no boundary requirement. -/
def dateMatchAt (cs : List Char) : Option (List Char) :=
  match cs with
  | a :: b :: '/' :: c :: d :: '/' :: e :: f :: g :: h :: _ =>
    if a.isDigit ∧ b.isDigit ∧ c.isDigit ∧ d.isDigit ∧ e.isDigit ∧ f.isDigit
        ∧ g.isDigit ∧ h.isDigit then
      some [a, b, '/', c, d, '/', e, f, g, h]
    else none
  | _ => none

/-- Model of `re.search`: the match at the leftmost position where one exists. -/
def findDateSub : List Char → Option (List Char)
  | [] => none
  | c :: rest =>
    match dateMatchAt (c :: rest) with
    | some m => some m
    | none => findDateSub rest

/-- Validity of the text `float(s)` accepts: optional sign, then
`inf`/`infinity`/`nan` (any case) or a decimal mantissa with an optional
exponent. -/
def mantissaOk (cs : List Char) : Bool :=
  match splitOnChar '.' cs with
  | [a] => a ≠ [] ∧ a.all Char.isDigit
  | [a, b] => (a ≠ [] ∨ b ≠ []) ∧ a.all Char.isDigit ∧ b.all Char.isDigit
  | _ => false

def expOk : List Char → Bool
  | '+' :: ds => ds ≠ [] ∧ ds.all Char.isDigit
  | '-' :: ds => ds ≠ [] ∧ ds.all Char.isDigit
  | ds => ds ≠ [] ∧ ds.all Char.isDigit

def pyFloatOk (s : String) : Bool :=
  let core := match trimChars s.data with
    | '+' :: r => r
    | '-' :: r => r
    | r => r
  let lc := lowerChars core
  if lc = "inf".data ∨ lc = "infinity".data ∨ lc = "nan".data then true
  else
    match splitOnChar 'e' lc with
    | [m] => mantissaOk m
    | [m, ex] => mantissaOk m && expOk ex
    | _ => false

/-- Indexing `l[i]` with Python's `IndexError`. -/
def pyIdx (l : List String) (i : Nat) : Except String String :=
  match l[i]? with
  | some v => .ok v
  | none => .error "IndexError: list index out of range"

/-- csv_parser.py lines 61-68: line 1 holds the report name and an embedded
`MM/DD/YYYY` date; a regex match that `strptime` then rejects raises. -/
def parseLine1 : List String → Except String (Option String × Option PDateTime)
  | [] => .ok (none, none)
  | l0 :: _ =>
    if (pyParseCSVLine l0).length ≥ 2 then
      match findDateSub ((pyParseCSVLine l0).getD 1 "").data with
      | none => .ok (some ((pyParseCSVLine l0).getD 0 ""), none)
      | some mcs =>
        match strptimeMDY mcs with
        | some d => .ok (some ((pyParseCSVLine l0).getD 0 ""), some d)
        | none => .error "ValueError: time data does not match format"
    else .ok (none, none)

/-- csv_parser.py lines 70-74: line 2 holds the company name. -/
def parseCompany (lines : List String) : Option String :=
  match lines with
  | _ :: l1 :: _ =>
    match pyParseCSVLine l1 with
    | [] => none
    | c :: _ => some c
  | _ => none

/-- csv_parser.py lines 76-85: the line after the `"Asset Groups"` marker
holds the asset group name and (third field) the active-host count, whose
`int(...)` raises on non-numeric text. -/
def parseAssetGroup (lines : List String) : Except String (Option String × Option Int) :=
  match lines.findIdx? (fun l => (pyParseCSVLine l).headD "" == "Asset Groups") with
  | none => .ok (none, none)
  | some j =>
    if j + 1 < lines.length then
      let valRow := pyParseCSVLine (lines.getD (j + 1) "")
      if valRow.length ≥ 3 then
        if valRow.getD 2 "" ≠ "" then
          match pyInt (valRow.getD 2 "") with
          | .ok n => .ok (some (valRow.getD 0 ""), some n)
          | .error e => .error e
        else .ok (some (valRow.getD 0 ""), none)
      else .ok (none, none)
    else .ok (none, none)

/-- csv_parser.py lines 87-96: the line after the `"Total Vulnerabilities"`
marker holds the declared total count (`int`) and the average risk
(`float`); both raise on malformed text. -/
def parseTotalVulns (lines : List String) : Except String (Option Int × Option String) :=
  match lines.findIdx? (fun l => (pyParseCSVLine l).headD "" == "Total Vulnerabilities") with
  | none => .ok (none, none)
  | some j =>
    if j + 1 < lines.length then
      let valRow := pyParseCSVLine (lines.getD (j + 1) "")
      if valRow.length ≥ 2 then
        match (if valRow.getD 0 "" ≠ "" then (pyInt (valRow.getD 0 "")).map some
               else .ok none) with
        | .error e => .error e
        | .ok tv =>
          if valRow.getD 1 "" ≠ "" then
            if pyFloatOk (valRow.getD 1 "") then .ok (tv, some (valRow.getD 1 ""))
            else .error "ValueError: could not convert string to float"
          else .ok (tv, none)
      else .ok (none, none)
    else .ok (none, none)

/-- csv_parser.py `parse_header` (lines 57-99). -/
def parse_header (lines : List String) : Except String ReportMetadata := do
  let nmdt ← parseLine1 lines
  let agah ← parseAssetGroup lines
  let tvar ← parseTotalVulns lines
  pure
    { report_name := nmdt.1, report_date := nmdt.2,
      company_name := parseCompany lines,
      asset_group := agah.1, active_hosts := agah.2,
      total_vulns := tvar.1, avg_risk := tvar.2 }

/-- csv_parser.py lines 106-114: the summary rows after the zone header,
ending at the first row whose first field is blank; `val_row[1]`/`val_row[2]`
raise IndexError on short rows, `int`/`float` on malformed numbers. -/
def hsCollect : List String → Except String (List HostSummary)
  | [] => .ok []
  | l :: rest =>
    let valRow := pyParseCSVLine l
    if valRow.headD "" = "" then .ok []
    else
      match pyIdx valRow 1 with
      | .error e => .error e
      | .ok s1 =>
        match (if s1 ≠ "" then pyInt s1 else .ok 0) with
        | .error e => .error e
        | .ok tv =>
          match pyIdx valRow 2 with
          | .error e => .error e
          | .ok s2 =>
            match (if s2 ≠ "" then
                (if pyFloatOk s2 then (.ok s2 : Except String String)
                 else .error "ValueError: could not convert string to float")
              else .ok "0.0") with
            | .error e => .error e
            | .ok risk =>
              match hsCollect rest with
              | .error e => .error e
              | .ok tail => .ok (⟨valRow.headD "", tv, risk⟩ :: tail)

/-- The host-summary zone header: first two fields `"IP"`,
`"Total Vulnerabilities"` with at least 3 fields. -/
def summaryHeaderLine (l : String) : Bool :=
  let row := pyParseCSVLine l
  row.length ≥ 3 && row.getD 0 "" == "IP" && row.getD 1 "" == "Total Vulnerabilities"

/-- csv_parser.py `parse_host_summary` (lines 101-117): no zone header means
an empty summary, never an error. -/
def parse_host_summary (lines : List String) : Except String (List HostSummary) :=
  match lines.findIdx? summaryHeaderLine with
  | none => .ok []
  | some j => hsCollect (lines.drop (j + 1))

/-- csv_parser.py line 123: a detail-zone header row parses to more than 10
fields whose first three are `"IP"`, `"DNS"`, `"NetBIOS"`. -/
def detailHeaderLine (l : String) : Bool :=
  let row := pyParseCSVLine l
  row.length > 10 && row.getD 0 "" == "IP" && row.getD 1 "" == "DNS"
    && row.getD 2 "" == "NetBIOS"

/-- csv_parser.py `find_detail_section_start` (lines 119-126): `none` models
the `ValueError("Cannot find detail vulnerability section in CSV")` — the
StructureError. -/
def find_detail_section_start (lines : List String) : Option Nat :=
  lines.findIdx? detailHeaderLine

/-! ### Theorems: the claims settled against the model -/

/-! ### Theorems -/


/-- C1. For every finding row and every rule list taken in its loaded
(priority-descending, ties in arrival order) order, the importer's
classification loop returns the `layer_id` of the *first* rule whose
lowercased pattern is a substring of the lowercased subject string (the title
when `match_field = "title"`, otherwise the category), and `none` when no rule
matches; the result is a pure function of title, category and the ordered rule
list. -/
theorem classify_first_match (title category : String) (rules : List LayerRule) :
    classify title category (loadedRules rules)
      = (rules.find? (ruleMatches title category)).map LayerRule.layer_id := by
  induction rules with
  | nil => rfl
  | cons r rest ih =>
    by_cases h : ruleMatches title category r
    · simp only [loadedRules, List.map_cons, classify, List.find?_cons_of_pos _ h,
        Option.map_some']
      rw [if_pos]
      exact h
    · simp only [loadedRules, List.map_cons, classify, List.find?_cons_of_neg _ h]
      rw [if_neg]
      · exact ih
      · simpa [ruleMatches] using h

/-- C10. The encoding fallback always succeeds: latin-1 decodes every
byte string, so the `"Cannot decode"` error branch at the end of
`_load_lines` is unreachable for every possible input. -/
theorem loadFileText_never_fails (bs : List Byte) :
    loadFileText bs = .ok ((utf8Decode bs).getD (latin1Decode bs)) := by
  unfold loadFileText decoders
  cases h : utf8Decode bs with
  | none => simp [List.findSome?, h]
  | some cs => simp [List.findSome?, h]

/-- Every check produced by the four non-total blocks has a `check_type`
other than `"total_vulns_mismatch"`. -/
theorem nonTotal_check_types (meta : ReportMetadata) (hs : List HostSummary)
    (rows : List DetailRow) :
    ∀ c ∈ hostCountChecks meta rows ++ perHostChecks hs rows
        ++ missingHostChecks hs rows ++ extraHostChecks hs rows,
      c.check_type ≠ "total_vulns_mismatch" := by
  intro c hc
  simp only [List.mem_append] at hc
  rcases hc with ((hc | hc) | hc) | hc
  · unfold hostCountChecks at hc
    split at hc
    · split at hc
      · rw [List.mem_singleton] at hc
        subst hc
        simp
      · simp at hc
    · simp at hc
  · unfold perHostChecks at hc
    obtain ⟨x, _, hx⟩ := List.mem_filterMap.mp hc
    split at hx
    · rw [Option.some_inj] at hx
      subst hx
      simp
    · simp at hx
  · unfold missingHostChecks at hc
    obtain ⟨x, _, hx⟩ := List.mem_map.mp hc
    subst hx
    simp
  · unfold extraHostChecks at hc
    obtain ⟨x, _, hx⟩ := List.mem_map.mp hc
    subst hx
    simp

/-- Filtering the full check list for the total-count check type yields
exactly the total-count block. -/
theorem runCoherence_total_filter (meta : ReportMetadata) (hs : List HostSummary)
    (rows : List DetailRow) :
    (runCoherenceChecks meta hs rows).filter
        (fun c => c.check_type == "total_vulns_mismatch")
      = totalVulnsChecks meta rows := by
  unfold runCoherenceChecks
  rw [List.append_assoc, List.append_assoc, List.append_assoc, List.filter_append]
  have h1 : (hostCountChecks meta rows ++ (perHostChecks hs rows
      ++ (missingHostChecks hs rows ++ extraHostChecks hs rows))).filter
        (fun c => c.check_type == "total_vulns_mismatch") = [] := by
    rw [List.filter_eq_nil_iff]
    intro c hc
    have := nonTotal_check_types meta hs rows c (by
      simpa [List.mem_append, or_assoc] using hc)
    simpa using this
  rw [h1, List.append_nil]
  rw [List.filter_eq_self]
  intro c hc
  unfold totalVulnsChecks at hc
  split at hc
  · split at hc
    · rw [List.mem_singleton] at hc
      subst hc
      simp
    · simp at hc
  · simp at hc

/-- C4. For every import, the total-count coherence check appears exactly
once — with severity `"warning"` when the absolute difference between declared
and actual is at most 2 and `"error"` when it is 3 or more — when the header
declared a total differing from the parsed row count, and does not appear at
all when the declared total is absent or equal to the row count. -/
theorem total_vulns_check_spec (meta : ReportMetadata) (hs : List HostSummary)
    (rows : List DetailRow) :
    (meta.total_vulns = none →
      (runCoherenceChecks meta hs rows).filter
        (fun c => c.check_type == "total_vulns_mismatch") = [])
    ∧ (∀ t : Int, meta.total_vulns = some t → t = (rows.length : Int) →
      (runCoherenceChecks meta hs rows).filter
        (fun c => c.check_type == "total_vulns_mismatch") = [])
    ∧ (∀ t : Int, meta.total_vulns = some t → t ≠ (rows.length : Int) →
      (runCoherenceChecks meta hs rows).filter
          (fun c => c.check_type == "total_vulns_mismatch")
        = [⟨"total_vulns_mismatch", none, toString t, toString (rows.length : Int),
            if (t - (rows.length : Int)).natAbs ≤ 2 then "warning" else "error"⟩]) := by
  refine ⟨?_, ?_, ?_⟩
  · intro h
    rw [runCoherence_total_filter]
    unfold totalVulnsChecks
    rw [h]
  · intro t ht heq
    rw [runCoherence_total_filter]
    unfold totalVulnsChecks
    rw [ht]
    simp [heq]
  · intro t ht hne
    rw [runCoherence_total_filter]
    unfold totalVulnsChecks
    rw [ht]
    simp [hne]

/-- Witness for C4 at a concrete input: declared total 100, 98 parsed rows
(difference 2 ⇒ a single `warning` check). -/
theorem total_vulns_check_spec_witness :
    ({ total_vulns := some 100 } : ReportMetadata).total_vulns = some 100
    ∧ (100 : Int) ≠ ((List.replicate 98 ({ ip := "10.0.0.1" } : DetailRow)).length : Int)
    ∧ (runCoherenceChecks { total_vulns := some 100 } []
          (List.replicate 98 { ip := "10.0.0.1" })).filter
          (fun c => c.check_type == "total_vulns_mismatch")
        = [⟨"total_vulns_mismatch", none, "100", "98", "warning"⟩] := by
  refine ⟨rfl, by decide, ?_⟩
  have h := (total_vulns_check_spec { total_vulns := some 100 } []
    (List.replicate 98 { ip := "10.0.0.1" })).2.2 100 rfl (by decide)
  rw [h]
  decide

/-- With any fuel above the string length, the pattern `['%']` matches
everything. -/
theorem likeMatchF_percent_only (f : Nat) (s : List Char) (h : s.length < f) :
    likeMatchF f ['%'] s = true := by
  induction f generalizing s with
  | zero => omega
  | succ f ih =>
    cases s with
    | nil => simp [likeMatchF]
    | cons d s' =>
      have hs : s'.length < f := by
        simp only [List.length_cons] at h
        omega
      simp [likeMatchF, ih s' hs]

/-- With enough fuel, an escaped backslash-free pattern followed by `%`
matches exactly the strings it starts. -/
theorem likeMatchF_escape_starts (p : List Char) (hb : ¬ '\\' ∈ p) :
    ∀ (s : List Char) (f : Nat), (escapeLike p ++ ['%']).length + s.length ≤ f →
      likeMatchF f (escapeLike p ++ ['%']) s = beginsWith p s := by
  induction p with
  | nil =>
    intro s f h
    simp only [escapeLike, List.nil_append]
    rw [likeMatchF_percent_only f s (by simp at h; omega)]
    rfl
  | cons c p' ih =>
    intro s f h
    have hc : c ≠ '\\' := fun hx => hb (hx ▸ List.mem_cons_self c p')
    have hb' : ¬ '\\' ∈ p' := fun hx => hb (List.mem_cons_of_mem c hx)
    by_cases hesc : c = '%' ∨ c = '_'
    · rw [escapeLike, if_pos hesc] at h ⊢
      cases f with
      | zero => simp at h
      | succ f =>
        cases s with
        | nil => simp [likeMatchF, beginsWith]
        | cons d s' =>
          have hlen : (escapeLike p' ++ ['%']).length + s'.length ≤ f := by
            simp only [List.length_cons, List.length_append] at h ⊢
            omega
          simp [likeMatchF, ih hb' s' f hlen, beginsWith]
    · rw [escapeLike, if_neg hesc] at h ⊢
      push_neg at hesc
      obtain ⟨h1, h2⟩ := hesc
      cases f with
      | zero => simp at h
      | succ f =>
        cases s with
        | nil => simp [likeMatchF, beginsWith, h1, hc, h2]
        | cons d s' =>
          have hlen : (escapeLike p' ++ ['%']).length + s'.length ≤ f := by
            simp only [List.length_cons, List.length_append] at h ⊢
            omega
          simp [likeMatchF, ih hb' s' f hlen, beginsWith, h1, hc, h2]

/-- With enough fuel, the generated LIKE pattern `'%' ++ esc p ++ '%'` for a
backslash-free `p` is exactly the Python substring test `p in s`. -/
theorem likeMatchF_escape_contains (p : List Char) (hb : ¬ '\\' ∈ p) :
    ∀ (s : List Char) (f : Nat),
      ('%' :: (escapeLike p ++ ['%'])).length + s.length ≤ f →
      likeMatchF f ('%' :: (escapeLike p ++ ['%'])) s = containsSub p s := by
  intro s
  induction s with
  | nil =>
    intro f h
    cases f with
    | zero => simp at h
    | succ f =>
      have hlen : (escapeLike p ++ ['%']).length + ([] : List Char).length ≤ f := by
        simp only [List.length_cons, List.length_nil] at h ⊢
        omega
      have hst := likeMatchF_escape_starts p hb [] f hlen
      simp only [likeMatchF, if_pos rfl, hst]
      cases p with
      | nil => rfl
      | cons c p' => simp [beginsWith, containsSub]
  | cons d s' ih =>
    intro f h
    cases f with
    | zero => simp at h
    | succ f =>
      have hlen : (escapeLike p ++ ['%']).length + (d :: s').length ≤ f := by
        simp only [List.length_cons] at h ⊢
        omega
      have hih : ('%' :: (escapeLike p ++ ['%'])).length + s'.length ≤ f := by
        simp only [List.length_cons] at h ⊢
        omega
      have hst := likeMatchF_escape_starts p hb (d :: s') f hlen
      simp only [likeMatchF, if_pos rfl, hst, ih f hih]
      rfl

/-- Fuel elimination: `likeMatch` of the generated pattern is the substring
test, for backslash-free patterns. -/
theorem likeMatch_escape_contains (p : List Char) (hb : ¬ '\\' ∈ p) (s : List Char) :
    likeMatch ('%' :: (escapeLike p ++ ['%'])) s = containsSub p s := by
  exact likeMatchF_escape_contains p hb s _ (Nat.le_refl _)

/-- Once a finding is classified, the remaining bulk rules leave it alone. -/
theorem bulk_foldl_some (rules : List LayerRule) (title category : String) (x : Nat) :
    rules.foldl
      (fun acc r =>
        match acc with
        | some _ => acc
        | none =>
          if likeMatch ('%' :: (escapeLike (lowerChars r.pattern.data) ++ ['%']))
              (lowerChars (if r.match_field = "title" then title else category).data) then
            some r.layer_id
          else none)
      (some x) = some x := by
  induction rules with
  | nil => rfl
  | cons r rest ih => simpa using ih

/-- Counterexample to C2 as stated: for the single rule with pattern
`"a\b"` (priority irrelevant) and a finding titled `"ab"`, the importer's
per-row classification leaves the finding unclassified (`"a\b"` is not a
substring of `"ab"`), while the bulk reclassification assigns layer 1, because
the generated LIKE pattern `%a\b%` treats `\b` as an escaped literal `b` and
matches `"ab"`. -/
theorem bulk_vs_perRow_backslash :
    bulkClassify "ab" "" [⟨"title", "a\\b", 1⟩] = some 1
    ∧ classify "ab" "" (loadedRules [⟨"title", "a\\b", 1⟩]) = none := by
  constructor
  · decide
  · decide

/-- C2 (amended). Provided no rule's (lowercased) pattern contains a
backslash, the bulk reclassification run — clear all assignments, then one
conditional LIKE-update per rule in priority order — gives every finding
exactly the `layer_id` the importer's per-row classification computes from the
same title, category and ordered rule list, including `none` when nothing
matches. -/
theorem bulk_reclassify_refines_classify (title category : String)
    (rules : List LayerRule) (hb : ∀ r ∈ rules, ¬ '\\' ∈ lowerChars r.pattern.data) :
    bulkClassify title category rules = classify title category (loadedRules rules) := by
  induction rules with
  | nil => rfl
  | cons r rest ih =>
    have hbr : ¬ '\\' ∈ lowerChars r.pattern.data := hb r (List.mem_cons_self r rest)
    have hbrest : ∀ x ∈ rest, ¬ '\\' ∈ lowerChars x.pattern.data :=
      fun x hx => hb x (List.mem_cons_of_mem r hx)
    have hlike := likeMatch_escape_contains (lowerChars r.pattern.data) hbr
      (lowerChars (if r.match_field = "title" then title else category).data)
    have hR : classify title category (loadedRules (r :: rest))
        = if containsSub (lowerChars r.pattern.data)
              (lowerChars (if r.match_field = "title" then title else category).data)
          then some r.layer_id
          else classify title category (loadedRules rest) := rfl
    rw [hR]
    show List.foldl _ none (r :: rest) = _
    rw [List.foldl_cons]
    by_cases hm : containsSub (lowerChars r.pattern.data)
        (lowerChars (if r.match_field = "title" then title else category).data)
    · rw [if_pos hm]
      have hstep : (match (none : Option Nat) with
          | some _ => (none : Option Nat)
          | none =>
            if likeMatch ('%' :: (escapeLike (lowerChars r.pattern.data) ++ ['%']))
                (lowerChars (if r.match_field = "title" then title else category).data) then
              some r.layer_id
            else none) = some r.layer_id := by
        simp only [hlike]
        rw [if_pos hm]
      rw [hstep, bulk_foldl_some]
    · rw [if_neg hm]
      have hstep : (match (none : Option Nat) with
          | some _ => (none : Option Nat)
          | none =>
            if likeMatch ('%' :: (escapeLike (lowerChars r.pattern.data) ++ ['%']))
                (lowerChars (if r.match_field = "title" then title else category).data) then
              some r.layer_id
            else none) = none := by
        simp only [hlike]
        rw [if_neg hm]
      rw [hstep]
      exact ih hbrest

/-- Witness for the amended C2 at a concrete input: one backslash-free rule
matching on the title. -/
theorem bulk_reclassify_refines_classify_witness :
    (∀ r ∈ [(⟨"title", "OpenSSL", 3⟩ : LayerRule)], ¬ '\\' ∈ lowerChars r.pattern.data)
    ∧ bulkClassify "OpenSSL heartbeat flaw" "Security" [⟨"title", "OpenSSL", 3⟩]
        = classify "OpenSSL heartbeat flaw" "Security"
            (loadedRules [⟨"title", "OpenSSL", 3⟩]) := by
  refine ⟨by decide, ?_⟩
  exact bulk_reclassify_refines_classify _ _ _ (by decide)

theorem updateHost_keys (ip : String) (f : HostRec → HostRec) (tbl : HostTable) :
    (updateHost ip f tbl).map Prod.fst = tbl.map Prod.fst := by
  induction tbl with
  | nil => rfl
  | cons p rest ih =>
    obtain ⟨k, h⟩ := p
    by_cases hk : k = ip
    · simp [updateHost, hk]
    · simp [updateHost, hk, ih]

theorem countKey_keys (ip : String) (tbl : HostTable) :
    countKey ip tbl = ((tbl.map Prod.fst).filter (fun k => k = ip)).length := by
  rw [countKey, List.filter_map, List.length_map]
  rfl

theorem lookupHost_update_self (ip : String) (f : HostRec → HostRec) (tbl : HostTable) :
    lookupHost ip (updateHost ip f tbl) = (lookupHost ip tbl).map f := by
  induction tbl with
  | nil => rfl
  | cons p rest ih =>
    obtain ⟨k, h⟩ := p
    by_cases hk : k = ip
    · simp [updateHost, lookupHost, List.find?_cons, hk]
    · simp only [updateHost, if_neg hk, lookupHost, List.find?_cons]
      simp only [lookupHost] at ih
      simp [hk, ih]

theorem lookupHost_update_ne (ip' ip : String) (f : HostRec → HostRec) (tbl : HostTable)
    (hne : ip' ≠ ip) :
    lookupHost ip' (updateHost ip f tbl) = lookupHost ip' tbl := by
  induction tbl with
  | nil => rfl
  | cons p rest ih =>
    obtain ⟨k, h⟩ := p
    by_cases hk : k = ip
    · subst hk
      have hk' : ¬ (k = ip') := fun hh => hne hh.symm
      simp [updateHost, lookupHost, List.find?_cons, hk']
    · by_cases hk' : k = ip'
      · simp [updateHost, hk, lookupHost, List.find?_cons, hk', hne]
      · simp only [updateHost, if_neg hk, lookupHost, List.find?_cons]
        simp only [lookupHost] at ih
        simp [hk', ih]

theorem countKey_update (ip' ip : String) (f : HostRec → HostRec) (tbl : HostTable) :
    countKey ip' (updateHost ip f tbl) = countKey ip' tbl := by
  rw [countKey_keys, countKey_keys, updateHost_keys]

theorem lookupHost_none_iff_countKey_zero (ip : String) (tbl : HostTable) :
    lookupHost ip tbl = none ↔ countKey ip tbl = 0 := by
  induction tbl with
  | nil => simp [lookupHost, countKey]
  | cons p rest ih =>
    obtain ⟨k, h⟩ := p
    by_cases hk : k = ip
    · simp [lookupHost, countKey, List.find?_cons, List.filter_cons, hk]
    · simp only [lookupHost, countKey, List.find?_cons, List.filter_cons] at ih ⊢
      simp [hk, ih]

theorem lookupHost_append_single_ne (ip k : String) (h : HostRec) (tbl : HostTable)
    (hne : k ≠ ip) :
    lookupHost ip (tbl ++ [(k, h)]) = lookupHost ip tbl := by
  simp [lookupHost, List.find?_cons, hne]

theorem lookupHost_append_single_self (ip : String) (h : HostRec) (tbl : HostTable)
    (hl : lookupHost ip tbl = none) :
    lookupHost ip (tbl ++ [(ip, h)]) = some h := by
  have hfind : tbl.find? (fun p => p.1 = ip) = none := by
    unfold lookupHost at hl
    cases hx : tbl.find? (fun p => p.1 = ip) with
    | none => rfl
    | some v => rw [hx] at hl; simp at hl
  simp [lookupHost, List.find?_cons, hfind]

theorem countKey_append_single_self (ip : String) (h : HostRec) (tbl : HostTable) :
    countKey ip (tbl ++ [(ip, h)]) = countKey ip tbl + 1 := by
  simp [countKey, List.filter_append, List.filter_cons]

theorem countKey_append_single_ne (ip k : String) (h : HostRec) (tbl : HostTable)
    (hne : k ≠ ip) :
    countKey ip (tbl ++ [(k, h)]) = countKey ip tbl := by
  simp [countKey, List.filter_append, List.filter_cons, hne]

theorem lookupHost_upsert_ne (ip : String) (t : Nat) (row : DetailRow) (tbl : HostTable)
    (hne : ip ≠ row.ip) :
    lookupHost ip (upsertHost t row tbl) = lookupHost ip tbl := by
  unfold upsertHost
  cases hl : lookupHost row.ip tbl with
  | none => exact lookupHost_append_single_ne ip row.ip _ tbl (fun hh => hne hh.symm)
  | some h => exact lookupHost_update_ne ip row.ip _ tbl hne

/-- The state of the host row with the row's own IP after one upsert. -/
theorem lookupHost_upsert_self (t : Nat) (row : DetailRow) (tbl : HostTable) :
    lookupHost row.ip (upsertHost t row tbl)
      = some (match lookupHost row.ip tbl with
        | none => ⟨row.dns, row.netbios, row.os, row.os_cpe, t, t⟩
        | some h =>
          { h with
            last_seen := t
            dns := if row.dns ≠ "" then row.dns else h.dns
            os := if row.os ≠ "" then row.os else h.os }) := by
  unfold upsertHost
  cases hl : lookupHost row.ip tbl with
  | none => exact lookupHost_append_single_self row.ip _ tbl hl
  | some h =>
    rw [lookupHost_update_self, hl]
    rfl

theorem countKey_upsert_self (t : Nat) (row : DetailRow) (tbl : HostTable) :
    countKey row.ip (upsertHost t row tbl)
      = (match lookupHost row.ip tbl with
        | none => countKey row.ip tbl + 1
        | some _ => countKey row.ip tbl) := by
  unfold upsertHost
  cases hl : lookupHost row.ip tbl with
  | none => exact countKey_append_single_self row.ip _ tbl
  | some h => exact countKey_update row.ip row.ip _ tbl

theorem countKey_upsert_ne (ip : String) (t : Nat) (row : DetailRow) (tbl : HostTable)
    (hne : ip ≠ row.ip) :
    countKey ip (upsertHost t row tbl) = countKey ip tbl := by
  unfold upsertHost
  cases hl : lookupHost row.ip tbl with
  | none => exact countKey_append_single_ne ip row.ip _ tbl (fun hh => hne hh.symm)
  | some h => exact countKey_update ip row.ip _ tbl

/-- Rows whose IP is already cached, and rows carrying other IPs, leave the
row for `ip` (and its multiplicity) untouched. -/
theorem importGo_untouched (t : Nat) (ip : String) :
    ∀ (rows : List DetailRow) (tbl : HostTable) (seen : List String),
      (ip ∈ seen ∨ ∀ r ∈ rows, r.ip ≠ ip) →
      lookupHost ip (importGo t rows tbl seen) = lookupHost ip tbl
      ∧ countKey ip (importGo t rows tbl seen) = countKey ip tbl := by
  intro rows
  induction rows with
  | nil =>
    intro tbl seen _
    exact ⟨rfl, rfl⟩
  | cons row rest ih =>
    intro tbl seen hcase
    have hrest : ip ∈ seen ∨ ∀ r ∈ rest, r.ip ≠ ip :=
      hcase.imp id (fun hall r hr => hall r (List.mem_cons_of_mem _ hr))
    by_cases h0 : row.ip = ""
    · simp only [importGo]
      rw [if_pos h0]
      exact ih tbl seen hrest
    · by_cases h1 : row.ip ∈ seen
      · simp only [importGo]
        rw [if_neg h0, if_pos h1]
        exact ih tbl seen hrest
      · simp only [importGo]
        rw [if_neg h0, if_neg h1]
        have hne : ip ≠ row.ip := by
          rcases hcase with hseen | hall
          · exact fun hh => h1 (hh ▸ hseen)
          · exact fun hh => (hall row (List.mem_cons_self _ _)) hh.symm
        have hcase' : ip ∈ row.ip :: seen ∨ ∀ r ∈ rest, r.ip ≠ ip := by
          rcases hrest with hseen | hall
          · exact Or.inl (List.mem_cons_of_mem _ hseen)
          · exact Or.inr hall
        have hrec := ih (upsertHost t row tbl) (row.ip :: seen) hcase'
        rw [hrec.1, hrec.2, lookupHost_upsert_ne ip t row tbl hne,
          countKey_upsert_ne ip t row tbl hne]
        exact ⟨rfl, rfl⟩

/-- After the per-row loop of one import at time `t`, provided some row
carries `ip` (nonempty and not yet cached): the host row for `ip` exists with
`last_seen = t`, nonempty `dns`/`os` are never lost, and the multiplicity of
`ip` grows from 0 to 1 on creation and is otherwise unchanged. -/
theorem importGo_props (t : Nat) (ip : String) (hip : ip ≠ "") :
    ∀ (rows : List DetailRow) (tbl : HostTable) (seen : List String),
      (∃ r ∈ rows, r.ip = ip) → ¬ ip ∈ seen →
      (∃ h : HostRec,
        lookupHost ip (importGo t rows tbl seen) = some h
        ∧ h.last_seen = t
        ∧ (∀ h0, lookupHost ip tbl = some h0 →
            ((h0.dns ≠ "" → h.dns ≠ "") ∧ (h0.os ≠ "" → h.os ≠ ""))))
      ∧ countKey ip (importGo t rows tbl seen)
          = (match lookupHost ip tbl with
             | none => countKey ip tbl + 1
             | some _ => countKey ip tbl) := by
  intro rows
  induction rows with
  | nil =>
    intro tbl seen hex _
    exact absurd hex (by simp)
  | cons row rest ih =>
    intro tbl seen hex hseen
    by_cases h0 : row.ip = ""
    · have hex' : ∃ r ∈ rest, r.ip = ip := by
        rcases hex with ⟨r, hr, hrip⟩
        rcases List.mem_cons.mp hr with hcase | hr'
        · exact absurd (by rw [hcase] at hrip; rw [← hrip]; exact h0) hip
        · exact ⟨r, hr', hrip⟩
      simp only [importGo]
      rw [if_pos h0]
      exact ih tbl seen hex' hseen
    · by_cases h1 : row.ip ∈ seen
      · have hrne : row.ip ≠ ip := fun hh => hseen (hh ▸ h1)
        have hex' : ∃ r ∈ rest, r.ip = ip := by
          rcases hex with ⟨r, hr, hrip⟩
          rcases List.mem_cons.mp hr with hcase | hr'
          · exact absurd (hcase ▸ hrip) hrne
          · exact ⟨r, hr', hrip⟩
        simp only [importGo]
        rw [if_neg h0, if_pos h1]
        exact ih tbl seen hex' hseen
      · simp only [importGo]
        rw [if_neg h0, if_neg h1]
        by_cases hrip : row.ip = ip
        · subst hrip
          have huntouched := importGo_untouched t row.ip rest (upsertHost t row tbl)
            (row.ip :: seen) (Or.inl (List.mem_cons_self _ _))
          refine ⟨?_, ?_⟩
          · rw [huntouched.1, lookupHost_upsert_self t row tbl]
            cases hl : lookupHost row.ip tbl with
            | none =>
              refine ⟨_, rfl, ?_, ?_⟩
              · rfl
              · intro h0 hh0
                exact absurd hh0 (by simp)
            | some hOld =>
              refine ⟨_, rfl, ?_, ?_⟩
              · rfl
              · intro h0 hh0
                have : h0 = hOld := (Option.some_injective _ hh0).symm
                subst this
                constructor
                · intro hd
                  by_cases hrd : row.dns ≠ ""
                  · simpa [hrd] using hrd
                  · simpa [hrd] using hd
                · intro hd
                  by_cases hrd : row.os ≠ ""
                  · simpa [hrd] using hrd
                  · simpa [hrd] using hd
          · rw [huntouched.2, countKey_upsert_self t row tbl]
        · have hne : ip ≠ row.ip := fun hh => hrip hh.symm
          have hex' : ∃ r ∈ rest, r.ip = ip := by
            rcases hex with ⟨r, hr, hrip'⟩
            rcases List.mem_cons.mp hr with hcase | hr'
            · exact absurd (hcase ▸ hrip') hrip
            · exact ⟨r, hr', hrip'⟩
          have hseen' : ¬ ip ∈ row.ip :: seen := by
            intro hmem
            rcases List.mem_cons.mp hmem with hcase | hmem'
            · exact hne hcase
            · exact hseen hmem'
          have hrec := ih (upsertHost t row tbl) (row.ip :: seen) hex' hseen'
          refine ⟨?_, ?_⟩
          · obtain ⟨h, hl, hls, hpres⟩ := hrec.1
            refine ⟨h, hl, hls, ?_⟩
            intro h0 hh0
            exact hpres h0 (by rw [lookupHost_upsert_ne ip t row tbl hne]; exact hh0)
          · rw [hrec.2, lookupHost_upsert_ne ip t row tbl hne,
              countKey_upsert_ne ip t row tbl hne]

/-- Specialization of `importGo_props` to the start of the loop (`host_cache = {}`). -/
theorem importHosts_step (t : Nat) (rows : List DetailRow) (tbl : HostTable) (ip : String)
    (hip : ip ≠ "") (hex : ∃ r ∈ rows, r.ip = ip) :
    (∃ h : HostRec,
      lookupHost ip (importHosts t rows tbl) = some h
      ∧ h.last_seen = t
      ∧ (∀ h0, lookupHost ip tbl = some h0 →
          ((h0.dns ≠ "" → h.dns ≠ "") ∧ (h0.os ≠ "" → h.os ≠ ""))))
    ∧ countKey ip (importHosts t rows tbl)
        = (match lookupHost ip tbl with
           | none => countKey ip tbl + 1
           | some _ => countKey ip tbl) :=
  importGo_props t ip hip rows tbl [] hex (by simp)

/-- Peeling the last run off a prefix of the import sequence. -/
theorem runImports_take_succ (imps : List (Nat × List DetailRow)) (k : Nat)
    (hk : k < imps.length) (tbl : HostTable) :
    runImports (imps.take (k+1)) tbl
      = importHosts (imps.get ⟨k, hk⟩).1 (imps.get ⟨k, hk⟩).2
          (runImports (imps.take k) tbl) := by
  rw [List.take_succ]
  rw [List.getElem?_eq_getElem hk]
  rw [runImports, runImports, List.foldl_append]
  rfl

/-- After each prefix of the import sequence, the host row for `ip` is unique
and carries the prefix's last import time as `last_seen`. -/
theorem runImports_prefix_state (imps : List (Nat × List DetailRow)) (ip : String)
    (hip : ip ≠ "") (hmem : ∀ p ∈ imps, ∃ r ∈ p.2, r.ip = ip) :
    ∀ k (hk : k < imps.length),
      countKey ip (runImports (imps.take (k+1)) []) = 1
      ∧ ∃ h : HostRec, lookupHost ip (runImports (imps.take (k+1)) []) = some h
          ∧ h.last_seen = (imps.get ⟨k, hk⟩).1 := by
  intro k
  induction k with
  | zero =>
    intro hk
    rw [runImports_take_succ imps 0 hk]
    have hm := hmem (imps.get ⟨0, hk⟩) (List.get_mem imps 0 hk)
    have hstep := importHosts_step (imps.get ⟨0, hk⟩).1 (imps.get ⟨0, hk⟩).2
      (runImports (imps.take 0) []) ip hip hm
    refine ⟨?_, ?_⟩
    · rw [hstep.2]
      rfl
    · obtain ⟨h, hl, hls, _⟩ := hstep.1
      exact ⟨h, hl, hls⟩
  | succ k ihk =>
    intro hk
    have hk' : k < imps.length := Nat.lt_of_succ_lt hk
    obtain ⟨hcount, h, hl, hls⟩ := ihk hk'
    rw [runImports_take_succ imps (k+1) hk]
    have hm := hmem (imps.get ⟨k+1, hk⟩) (List.get_mem imps (k+1) hk)
    have hstep := importHosts_step (imps.get ⟨k+1, hk⟩).1 (imps.get ⟨k+1, hk⟩).2
      (runImports (imps.take (k+1)) []) ip hip hm
    refine ⟨?_, ?_⟩
    · rw [hstep.2, hl]
      exact hcount
    · obtain ⟨h', hl', hls', _⟩ := hstep.1
      exact ⟨h', hl', hls'⟩

/-- C5. For every sequence of imports (with a non-decreasing clock) of
files all containing the same (non-empty) IP: exactly one `Host` row for that
IP exists afterwards; each import leaves `last_seen` equal to its own clock
reading, so `last_seen` is monotonically non-decreasing across the sequence;
and a non-empty `dns`/`os` value is never overwritten by an empty one. -/
theorem host_upsert_invariant (imps : List (Nat × List DetailRow)) (ip : String)
    (hip : ip ≠ "")
    (hmono : List.Chain' (· ≤ ·) (imps.map Prod.fst))
    (hmem : ∀ p ∈ imps, ∃ r ∈ p.2, r.ip = ip) :
    (imps ≠ [] → countKey ip (runImports imps []) = 1)
    ∧ (∀ k (hk : k < imps.length),
        ∃ h : HostRec, lookupHost ip (runImports (imps.take (k+1)) []) = some h
          ∧ h.last_seen = (imps.get ⟨k, hk⟩).1)
    ∧ (∀ i j (hi : i < imps.length) (hj : j < imps.length), i ≤ j →
        ∀ hi' hj' : HostRec,
          lookupHost ip (runImports (imps.take (i+1)) []) = some hi' →
          lookupHost ip (runImports (imps.take (j+1)) []) = some hj' →
          hi'.last_seen ≤ hj'.last_seen)
    ∧ (∀ k (hk : k < imps.length) (h h' : HostRec),
        lookupHost ip (runImports (imps.take k) []) = some h →
        lookupHost ip (runImports (imps.take (k+1)) []) = some h' →
        ((h.dns ≠ "" → h'.dns ≠ "") ∧ (h.os ≠ "" → h'.os ≠ ""))) := by
  have hstate := runImports_prefix_state imps ip hip hmem
  refine ⟨?_, ?_, ?_, ?_⟩
  · intro hne
    have hlen : 0 < imps.length := List.length_pos.mpr hne
    have := (hstate (imps.length - 1) (by omega)).1
    rw [show imps.length - 1 + 1 = imps.length from by omega, List.take_length] at this
    exact this
  · intro k hk
    exact (hstate k hk).2
  · intro i j hi hj hij hi' hj' hli hlj
    obtain ⟨h1, hl1, hls1⟩ := (hstate i hi).2
    obtain ⟨h2, hl2, hls2⟩ := (hstate j hj).2
    have e1 : hi' = h1 := Option.some_injective _ (hli.symm.trans hl1)
    have e2 : hj' = h2 := Option.some_injective _ (hlj.symm.trans hl2)
    subst e1
    subst e2
    rw [hls1, hls2]
    rcases Nat.lt_or_ge i j with hlt | hge
    · have hpair : List.Pairwise (· ≤ ·) (imps.map Prod.fst) :=
        List.chain'_iff_pairwise.mp hmono
    -- index the pairwise relation at i < j
      have hmap : ∀ (n : Nat) (hn : n < imps.length),
          (imps.map Prod.fst).get ⟨n, by simpa using hn⟩ = (imps.get ⟨n, hn⟩).1 := by
        intro n hn
        simp [List.get_map]
      have := List.pairwise_iff_get.mp hpair ⟨i, by simpa using hi⟩ ⟨j, by simpa using hj⟩
        (by simpa using hlt)
      rw [hmap i hi, hmap j hj] at this
      exact this
    · have : i = j := Nat.le_antisymm hij hge
      subst this
      exact Nat.le_refl _
  · intro k hk h h' hlk hlk1
    have hm := hmem (imps.get ⟨k, hk⟩) (List.get_mem imps k hk)
    have hstep := importHosts_step (imps.get ⟨k, hk⟩).1 (imps.get ⟨k, hk⟩).2
      (runImports (imps.take k) []) ip hip hm
    obtain ⟨h'', hl'', _, hpres⟩ := hstep.1
    rw [← runImports_take_succ imps k hk] at hl''
    have e : h' = h'' := Option.some_injective _ (hlk1.symm.trans hl'')
    subst e
    exact hpres h hlk

/-- Witness for C5: two imports of the same IP at times 1 and 2. -/
theorem host_upsert_invariant_witness :
    ("10.0.0.1" : String) ≠ ""
    ∧ List.Chain' (· ≤ ·)
        ((([(1, [({ ip := "10.0.0.1", dns := "srv" } : DetailRow)]),
            (2, [({ ip := "10.0.0.1" } : DetailRow)])] :
          List (Nat × List DetailRow)).map Prod.fst))
    ∧ countKey "10.0.0.1"
        (runImports [(1, [{ ip := "10.0.0.1", dns := "srv" }]),
                     (2, [{ ip := "10.0.0.1" }])] []) = 1 := by
  refine ⟨by decide, by simp, ?_⟩
  exact (host_upsert_invariant
    [(1, [{ ip := "10.0.0.1", dns := "srv" }]), (2, [{ ip := "10.0.0.1" }])]
    "10.0.0.1" (by decide) (by simp) (by decide)).1 (by decide)

theorem lookupMtime_record_self (path : String) (t : Nat) (m : KnownFiles) :
    lookupMtime path (recordMtime path t m) = some t := by
  induction m with
  | nil => simp [recordMtime, lookupMtime, List.find?_cons]
  | cons p rest ih =>
    obtain ⟨k, v⟩ := p
    by_cases hk : k = path
    · simp [recordMtime, hk, lookupMtime, List.find?_cons]
    · simp only [recordMtime, if_neg hk, lookupMtime, List.find?_cons]
      simp only [lookupMtime] at ih
      simp [hk, ih]

theorem lookupMtime_record_ne (p path : String) (t : Nat) (m : KnownFiles)
    (hne : p ≠ path) :
    lookupMtime p (recordMtime path t m) = lookupMtime p m := by
  have hx : ¬ (path = p) := fun hh => hne hh.symm
  induction m with
  | nil =>
    simp [recordMtime, lookupMtime, List.find?_cons, hx]
  | cons q rest ih =>
    obtain ⟨k, v⟩ := q
    by_cases hk : k = path
    · subst hk
      simp [recordMtime, lookupMtime, List.find?_cons, hx]
    · by_cases hk' : k = p
      · simp [recordMtime, hk, lookupMtime, List.find?_cons, hk', hne]
      · simp only [recordMtime, if_neg hk, lookupMtime, List.find?_cons]
        simp only [lookupMtime] at ih
        simp [hk', ih]

theorem watchStep_lookup_ne (known : KnownFiles) (e : FileEvent) (p : String)
    (hne : p ≠ e.path) :
    lookupMtime p (watchStep known e).1 = lookupMtime p known := by
  unfold watchStep
  split
  · rfl
  · cases lookupMtime e.path known with
    | some m =>
      by_cases h1 : e.mtime = m
      · simp [h1]
      · by_cases h2 : isStable e
        · simp [h1, h2, lookupMtime_record_ne p e.path e.mtime known hne]
        · simp [h1, h2]
    | none =>
      by_cases h2 : isStable e
      · simp [h2, lookupMtime_record_ne p e.path e.mtime known hne]
      · simp [h2]

/-- A file observed with unstable or zero size is neither imported nor
recorded in that cycle. -/
theorem watchStep_unstable (known : KnownFiles) (e : FileEvent)
    (h : ¬ isStable e = true) :
    watchStep known e = (known, false) := by
  unfold watchStep
  split
  · rfl
  · cases lookupMtime e.path known with
    | some m =>
      by_cases h1 : e.mtime = m
      · simp [h1]
      · simp [h1, h]
    | none => simp [h]

/-- A stable, non-cutoff, new-or-modified file fires the import callback and
gets its mtime recorded (before the callback, hence for any outcome). -/
theorem watchStep_fires (known : KnownFiles) (e : FileEvent)
    (hcut : skipByCutoff e = false) (hst : isStable e = true)
    (hnew : ¬ lookupMtime e.path known = some e.mtime) :
    watchStep known e = (recordMtime e.path e.mtime known, true) := by
  unfold watchStep
  rw [hcut]
  simp only [Bool.false_eq_true, if_false]
  cases hl : lookupMtime e.path known with
  | some m =>
    have h1 : ¬ e.mtime = m := fun hh => hnew (by rw [hl, hh])
    simp [h1, hst]
  | none => simp [hst]

/-- Within one cycle whose observations of path `p` all carry the same mtime
`m`, stable sizes and no cutoff: `p` is imported zero times when `m` is
already recorded, exactly once when some observation of `p` exists and `m` is
not yet recorded; and afterwards `m` is recorded whenever it was recorded
before or an observation exists. -/
theorem watchCycle_count (p : String) (m : Nat) :
    ∀ (events : List FileEvent) (known : KnownFiles),
      (∀ e ∈ events, e.path = p →
        (e.mtime = m ∧ isStable e = true ∧ skipByCutoff e = false)) →
      (countPath p (watchCycle known events).2
        = (if lookupMtime p known = some m then 0
           else if events.any (fun e => e.path = p) then 1 else 0))
      ∧ (((∃ e ∈ events, e.path = p) ∨ lookupMtime p known = some m) →
          lookupMtime p (watchCycle known events).1 = some m) := by
  intro events
  induction events with
  | nil =>
    intro known _
    constructor
    · simp only [watchCycle, countPath, List.filter_nil, List.length_nil, List.any_nil]
      split <;> rfl
    · intro hcase
      rcases hcase with ⟨e, he, _⟩ | hrec
      · exact absurd he (List.not_mem_nil e)
      · exact hrec
  | cons e rest ih =>
    intro known hall
    have hallrest : ∀ x ∈ rest, x.path = p →
        (x.mtime = m ∧ isStable x = true ∧ skipByCutoff x = false) :=
      fun x hx => hall x (List.mem_cons_of_mem e hx)
    by_cases hep : e.path = p
    · obtain ⟨hm, hst, hcut⟩ := hall e (List.mem_cons_self e rest) hep
      by_cases hrec : lookupMtime p known = some m
      · have hskip : watchStep known e = (known, false) := by
          unfold watchStep
          rw [hcut]
          simp only [Bool.false_eq_true, if_false]
          rw [hep, hrec, hm]
          simp
        have hrest := ih known hallrest
        constructor
        · simp only [watchCycle, hskip]
          rw [show (watchCycle known rest).2
              = (match watchCycle known rest with
                 | (finalKnown, imps) => imps) from rfl] at hrest
          cases hcw : watchCycle known rest with
          | mk fk imps =>
            simp only [hcw] at hrest ⊢
            rw [if_neg (by simp : ¬ (false = true))] at *
            rw [hrest.1, if_pos hrec]
            simp [hrec]
        · intro _
          cases hcw : watchCycle known rest with
          | mk fk imps =>
            have := (ih known hallrest).2 (Or.inr hrec)
            simp only [watchCycle, hskip, hcw] at this ⊢
            exact this
      · have hfire : watchStep known e
            = (recordMtime e.path e.mtime known, true) :=
          watchStep_fires known e hcut hst (by rw [hep, hm]; exact hrec)
        have hrec' : lookupMtime p (recordMtime e.path e.mtime known) = some m := by
          rw [← hep] at hrec ⊢
          rw [lookupMtime_record_self, hm]
        have hrest := ih (recordMtime e.path e.mtime known) hallrest
        constructor
        · cases hcw : watchCycle (recordMtime e.path e.mtime known) rest with
          | mk fk imps =>
            simp only [watchCycle, hfire, hcw]
            simp only [hcw] at hrest
            have h0 : countPath p imps = 0 := by
              have := hrest.1
              rw [if_pos hrec'] at this
              exact this
            simp only [countPath, List.filter_cons] at h0 ⊢
            rw [if_neg hrec]
            simp [hep, h0]
        · intro _
          cases hcw : watchCycle (recordMtime e.path e.mtime known) rest with
          | mk fk imps =>
            have := hrest.2 (Or.inr hrec')
            simp only [watchCycle, hfire, hcw] at this ⊢
            exact this
    · -- an observation of another path never touches p's record or count
      have hlook : lookupMtime p (watchStep known e).1 = lookupMtime p known :=
        watchStep_lookup_ne known e p (fun hh => hep hh.symm)
      cases hstep : watchStep known e with
      | mk known' fired =>
        have hlook' : lookupMtime p known' = lookupMtime p known := by
          rw [← hlook, hstep]
        have hrest := ih known' hallrest
        cases hcw : watchCycle known' rest with
        | mk fk imps =>
          simp only [hcw] at hrest
          constructor
          · simp only [watchCycle, hstep, hcw]
            have hcount : countPath p (if fired then e.path :: imps else imps)
                = countPath p imps := by
              cases fired
              · rfl
              · simp [countPath, List.filter_cons, hep]
            rw [hcount, hrest.1, hlook']
            simp [hep]
          · intro hcase
            simp only [watchCycle, hstep, hcw]
            apply hrest.2
            rcases hcase with ⟨x, hx, hxp⟩ | hr
            · rcases List.mem_cons.mp hx with hcase' | hx'
              · exact absurd (hcase' ▸ hxp) hep
              · exact Or.inl ⟨x, hx', hxp⟩
            · exact Or.inr (by rw [hlook']; exact hr)

/-- C8. In every watcher scan cycle: a new-or-modified file whose two
size samples differ or whose size is zero is not imported and its recorded
mtime is unchanged (so it is re-examined next cycle); a stable non-zero
new-or-modified file (not excluded by `ignore_before`) is imported with its
mtime recorded before the callback — hence for any import outcome; and across
a cycle whose observations of a path all carry one mtime, that path is
imported exactly once when new-or-modified and zero times when unchanged. -/
theorem watcher_stability_gate :
    (∀ (known : KnownFiles) (e : FileEvent),
      ¬ isStable e = true → watchStep known e = (known, false))
    ∧ (∀ (known : KnownFiles) (e : FileEvent),
      skipByCutoff e = false → isStable e = true →
      ¬ lookupMtime e.path known = some e.mtime →
      watchStep known e = (recordMtime e.path e.mtime known, true)
      ∧ lookupMtime e.path (recordMtime e.path e.mtime known) = some e.mtime)
    ∧ (∀ (known : KnownFiles) (events : List FileEvent) (p : String) (m : Nat),
      (∀ e ∈ events, e.path = p →
        (e.mtime = m ∧ isStable e = true ∧ skipByCutoff e = false)) →
      countPath p (watchCycle known events).2
        = (if lookupMtime p known = some m then 0
           else if events.any (fun e => e.path = p) then 1 else 0)) := by
  refine ⟨watchStep_unstable, ?_, ?_⟩
  · intro known e hcut hst hnew
    exact ⟨watchStep_fires known e hcut hst hnew,
      lookupMtime_record_self e.path e.mtime known⟩
  · intro known events p m hall
    exact (watchCycle_count p m events known hall).1

/-- Witness for C8: a growing file is deferred; once stable it is imported
exactly once in the cycle even when observed twice. -/
theorem watcher_stability_gate_witness :
    (¬ isStable ⟨"r.csv", 5, 10, 20, none, true⟩ = true)
    ∧ watchStep [] ⟨"r.csv", 5, 10, 20, none, true⟩ = ([], false)
    ∧ countPath "r.csv"
        (watchCycle []
          [⟨"r.csv", 7, 30, 30, none, true⟩, ⟨"r.csv", 7, 30, 30, none, false⟩]).2
      = 1 := by
  refine ⟨by decide, ?_, ?_⟩
  · exact watcher_stability_gate.1 [] ⟨"r.csv", 5, 10, 20, none, true⟩ (by decide)
  · have := watcher_stability_gate.2.2 []
      [⟨"r.csv", 7, 30, 30, none, true⟩, ⟨"r.csv", 7, 30, 30, none, false⟩]
      "r.csv" 7 (by decide)
    rw [this]
    decide

/-- C7. When the parsed header carries a report date: a persisted report
matching it on date, asset group and declared total makes the watcher skip
the file (no ScanReport/ImportJob is created); when no persisted report has
that date, the importer runs and creates a new ScanReport. -/
theorem watcher_dedup (meta : ReportMetadata) (persisted : List PersistedReport)
    (d : PDateTime) (hdate : meta.report_date = some d) :
    ((∃ r ∈ persisted, r.report_date = some d ∧ r.asset_group = meta.asset_group
        ∧ r.total_vulns_declared = meta.total_vulns) →
      autoImportProceeds meta persisted = false)
    ∧ ((∀ r ∈ persisted, r.report_date ≠ some d) →
      autoImportProceeds meta persisted = true) := by
  constructor
  · rintro ⟨r, hr, hd, hg, ht⟩
    unfold autoImportProceeds
    rw [hdate]
    have hc : dedupConds meta d r = true := by
      unfold dedupConds
      rw [hd, hg, ht]
      cases meta.total_vulns <;> simp
    have hany : persisted.any (dedupConds meta d) = true :=
      List.any_eq_true.mpr ⟨r, hr, hc⟩
    show (!(persisted.any (dedupConds meta d))) = false
    rw [hany]
    rfl
  · intro hall
    unfold autoImportProceeds
    rw [hdate]
    have hany : persisted.any (dedupConds meta d) = false := by
      rw [List.any_eq_false]
      intro r hr
      unfold dedupConds
      simp [hall r hr]
    show (!(persisted.any (dedupConds meta d))) = true
    rw [hany]
    rfl

/-- Witness for C7: a persisted report matching the header on all three
fields forces a skip. -/
theorem watcher_dedup_witness :
    dedupMetaW.report_date = some ⟨3, 15, 2026, 0, 0, 0⟩
    ∧ (∃ r ∈ [dedupReportW],
        r.report_date = some ⟨3, 15, 2026, 0, 0, 0⟩
        ∧ r.asset_group = dedupMetaW.asset_group
        ∧ r.total_vulns_declared = dedupMetaW.total_vulns)
    ∧ autoImportProceeds dedupMetaW [dedupReportW] = false := by
  refine ⟨rfl, by decide, ?_⟩
  exact (watcher_dedup dedupMetaW [dedupReportW] ⟨3, 15, 2026, 0, 0, 0⟩ rfl).1 (by decide)

/-- C3 (the code evaluated at the failing input). Port, date and CVE
coercion are safe on malformed input as claimed, but a non-numeric Severity
cell raises `ValueError` from `int(...)`, aborting the row and the whole run
— against the claim that malformed numeric fields are coerced and never
abort.  (Also: an all-blank CVE cell yields the empty list, not null.) -/
theorem malformed_field_coercion_bug :
    coercePort "High" = none
    ∧ parse_dt "yesterday" = none
    ∧ coerceCves "," = some []
    ∧ coerceSeverity "High" = .error "invalid literal for int: High"
    ∧ importRow [] badSeverityRow = .error "invalid literal for int: High" := by
  refine ⟨by decide, by decide, by decide, rfl, rfl⟩

/-- C6 (the code evaluated at the failing input). A run over a single
detail row with Severity "High" ends in an uncaught exception: no JobState is
produced at all — the ImportJob is rolled back with the transaction, never
finalized to status "error" with the message captured (no code path sets
either).  On a well-formed row the run finalizes to done/100 as claimed. -/
theorem import_job_error_never_finalized :
    importRun [] [badSeverityRow] = .error "invalid literal for int: High"
    ∧ importRun [] [{ ip := "10.0.0.2", title := "T", severity := "3" }]
      = .ok ({ status := "done", progress := 100, rows_processed := 1,
               rows_total := 1, ended_at_set := true, error_message := none },
        [{ qid := 0, title := "T", severity := 3, port := none, ssl := none,
           first_detected := none, last_detected := none, times_detected := none,
           date_last_fixed := none, cve_ids := none, pci_vuln := none,
           category := "", layer_id := none }]) := by
  refine ⟨rfl, rfl⟩

/-- Counterexample to C9 as stated: in this file a detail-zone header
line exists (line index 2 parses to 11 fields headed IP, DNS, NetBIOS), yet
parsing still raises — the `"Asset Groups"` marker is followed by a row whose
active-host count field is `"abc"`, and `int("abc")` raises `ValueError`
before any StructureError question arises.  So StructureError is not the only
hard parse failure. -/
theorem partial_header_raises_counterexample :
    (∃ j, find_detail_section_start
        ["Asset Groups", "g,x,abc", "IP,DNS,NetBIOS,a,b,c,d,e,f,g,h"] = some j)
    ∧ parse_header ["Asset Groups", "g,x,abc", "IP,DNS,NetBIOS,a,b,c,d,e,f,g,h"]
      = .error "invalid literal for int: abc" := by
  exact ⟨⟨2, by decide⟩, rfl⟩

/-- C9 (amended). The function `find_detail_section_start` fails exactly when no line
parses to more than 10 fields with first three `IP`, `DNS`, `NetBIOS`; a
*missing* header zone — no embedded date on line 1 and no marker lines — and
a missing host-summary zone never make parsing raise.  (A header or summary
zone that is *present but malformed* — a non-numeric count or risk, or a
regex-matching but invalid date — still raises, per the counterexample.) -/
theorem structure_error_iff_missing_zones_safe (lines : List String) :
    (find_detail_section_start lines = none ↔ ∀ l ∈ lines, detailHeaderLine l = false)
    ∧ ((lines = [] ∨ (pyParseCSVLine (lines.headD "")).length < 2
          ∨ findDateSub ((pyParseCSVLine (lines.headD "")).getD 1 "").data = none) →
       (∀ l ∈ lines, ¬ (pyParseCSVLine l).headD "" = "Asset Groups") →
       (∀ l ∈ lines, ¬ (pyParseCSVLine l).headD "" = "Total Vulnerabilities") →
       ∃ m, parse_header lines = .ok m)
    ∧ ((∀ l ∈ lines, summaryHeaderLine l = false) →
       parse_host_summary lines = .ok []) := by
  refine ⟨List.findIdx?_eq_none_iff, ?_, ?_⟩
  · intro h1 h2 h3
    have hAG : parseAssetGroup lines = .ok (none, none) := by
      unfold parseAssetGroup
      rw [List.findIdx?_eq_none_iff.mpr (fun l hl => by
        rw [beq_eq_false_iff_ne]
        exact h2 l hl)]
    have hTV : parseTotalVulns lines = .ok (none, none) := by
      unfold parseTotalVulns
      rw [List.findIdx?_eq_none_iff.mpr (fun l hl => by
        rw [beq_eq_false_iff_ne]
        exact h3 l hl)]
    have hL1 : ∃ v, parseLine1 lines = .ok v := by
      cases lines with
      | nil => exact ⟨(none, none), rfl⟩
      | cons l0 rest =>
        simp only [parseLine1]
        rcases h1 with h | h | h
        · exact absurd h (by simp)
        · simp only [List.headD_cons] at h
          rw [if_neg (by omega)]
          exact ⟨(none, none), rfl⟩
        · simp only [List.headD_cons] at h
          by_cases hlen : (pyParseCSVLine l0).length ≥ 2
          · rw [if_pos hlen, h]
            exact ⟨_, rfl⟩
          · rw [if_neg hlen]
            exact ⟨_, rfl⟩
    obtain ⟨v, hv⟩ := hL1
    refine ⟨{ report_name := v.1, report_date := v.2,
              company_name := parseCompany lines, asset_group := none,
              active_hosts := none, total_vulns := none, avg_risk := none }, ?_⟩
    unfold parse_header
    rw [hv, hAG, hTV]
    rfl
  · intro hall
    unfold parse_host_summary
    rw [List.findIdx?_eq_none_iff.mpr hall]

/-- Witness for the amended C9: a file with a two-field first line carrying
no date text, a company line, no marker lines and no summary zone, but a
detail-zone header — header parsing succeeds and the detail zone is found. -/
theorem structure_error_iff_missing_zones_safe_witness :
    findDateSub ((pyParseCSVLine ("report,foo" : String)).getD 1 "").data = none
    ∧ (∀ l ∈ (["report,foo", "Acme Corp", "IP,DNS,NetBIOS,a,b,c,d,e,f,g,h"] :
          List String),
        ¬ (pyParseCSVLine l).headD "" = "Asset Groups")
    ∧ (∃ m, parse_header
        ["report,foo", "Acme Corp", "IP,DNS,NetBIOS,a,b,c,d,e,f,g,h"] = .ok m) := by
  refine ⟨by decide, by decide, ?_⟩
  exact (structure_error_iff_missing_zones_safe
    ["report,foo", "Acme Corp", "IP,DNS,NetBIOS,a,b,c,d,e,f,g,h"]).2.1
    (Or.inr (Or.inr (by decide))) (by decide) (by decide)

end Q2H

